import Mathlib

/-!
Verification of the Terminal-Tic-Tac-Toe board engine (`src/tttt.py`).

The engine is the `TicTacToe` class: an n×n grid stored as a dict keyed by
`(row, col)` pairs inserted in row-major order, a `_last_draw` field tracking
the most recent mark, a `_finished` flag, the `finished`/`current_drawer`
properties, the `draw` mutator and the `_does_win` four-axis win detector.
This file embeds those operations as pure Lean functions (the dict becomes a
total function `Nat × Nat → Mark` plus the explicit row-major key order;
raised exceptions become `Except` errors carrying the state at raise time;
`print` calls are dropped) and proves the specification claims about them.
-/

namespace TTTT

/-- Cell contents are the Python strings stored in the grid. The engine never
validates the `entry` argument of `draw`, so any string can end up in a cell;
the three constants below are the ones the program itself uses. -/
abbrev Mark := String

namespace Draw

/-- `Draw.Empty = " "` -/
def Empty : Mark := " "

/-- `Draw.X = "X"` -/
def X : Mark := "X"

/-- `Draw.O = "O"` -/
def O : Mark := "O"

end Draw

/-- State of a `TicTacToe` object.  `_grid` models the dict `self._grid` as a
total function; the dict's key set is exactly `[0,n) × [0,n)` (created in
`__init__`, and `draw` only ever assigns to an existing key), and its
insertion order — row-major — is modelled by `rowMajorCoords` below.  The
field `self._number_of_cells` (set once in `__init__` to `n*n` and never
reassigned) is modelled by the derived definition `numberOfCells`. -/
structure TicTacToe where
  _n_dimensions : Nat
  _finished : Bool
  _last_draw : Mark
  _grid : Nat × Nat → Mark

/-- The keys of `self._grid` in insertion order:
`for x in range(n): for y in range(n): self._grid[x, y] = Draw.Empty`. -/
def rowMajorCoords (n : Nat) : List (Nat × Nat) :=
  (List.range n).flatMap fun x => (List.range n).map fun y => (x, y)

/-- `self._grid.items()` (keys in insertion order, paired with their values). -/
def gridItems (t : TicTacToe) : List ((Nat × Nat) × Mark) :=
  (rowMajorCoords t._n_dimensions).map fun c => (c, t._grid c)

/-- `list(self._grid.values())` (values in insertion order). -/
def gridValues (t : TicTacToe) : List Mark :=
  (rowMajorCoords t._n_dimensions).map t._grid

/-- `self._number_of_cells = n_dimensions * n_dimensions` (set in `__init__`,
never reassigned). -/
def TicTacToe.numberOfCells (t : TicTacToe) : Nat :=
  t._n_dimensions * t._n_dimensions

/-- `len([_ for _ in self._grid.values() if _ != Draw.Empty])` — the number of
non-empty cells. -/
def filledCount (t : TicTacToe) : Nat :=
  ((gridValues t).filter (· != Draw.Empty)).length

/-- The `finished` property:
`self._finished or len([...non-empty...]) == self._number_of_cells`. -/
def TicTacToe.finished (t : TicTacToe) : Bool :=
  t._finished || (filledCount t == t.numberOfCells)

/-- The `current_drawer` property. -/
def TicTacToe.current_drawer (t : TicTacToe) : Mark :=
  if t._last_draw == Draw.Empty || t._last_draw == Draw.O then Draw.X else Draw.O

/-- `_show_winner`: sets `self._finished = True` (the `print` is dropped). -/
def showWinner (t : TicTacToe) : TicTacToe :=
  { t with _finished := true }

/-- The loop body of the closure `_straight_check`: `entries` accumulates the
values of the items scanned so far since the last reset; whenever it reaches
length `n` it is checked against `entry_type` (success returns `True`,
otherwise the accumulator is reset).  Falling off the loop returns `None`,
i.e. falsy. -/
def straightCheckGo (entry_type : Mark) (n : Nat) (entries : List Mark) :
    List ((Nat × Nat) × Mark) → Bool
  | [] => false
  | item :: rest =>
    if entries.length ≤ n then
      let entries' := entries ++ [item.2]
      if entries'.length == n then
        if entries'.all (· == entry_type) then true
        else straightCheckGo entry_type n [] rest
      else straightCheckGo entry_type n entries' rest
    else straightCheckGo entry_type n entries rest

/-- The closure `_straight_check(grid_items)` of `_does_win`. -/
def straight_check (entry_type : Mark) (n : Nat)
    (grid_items : List ((Nat × Nat) × Mark)) : Bool :=
  straightCheckGo entry_type n [] grid_items

/-- Python `range(start, stop, step)` for a positive `step`. -/
def pyRange (start stop step : Nat) : List Nat :=
  List.range' start ((stop - start + step - 1) / step) step

/-- The closure `_diagonal_check(values, step_size, offset)` of `_does_win`:
walk `range(offset, len(self._grid.values()), step_size)`, collecting
`values[i]` until `n` entries are gathered (the `break`), then test whether
all collected entries equal `entry_type`.  (`numCells` is
`len(self._grid.values())`; every index visited is below `values.length` in
the actual calls, so the `getD` default is never read.) -/
def diagonal_check (entry_type : Mark) (n numCells : Nat) (values : List Mark)
    (step_size offset : Nat) : Bool :=
  (((pyRange offset numCells step_size).take n).map
      fun i => values.getD i Draw.Empty).all (· == entry_type)

/-- `sorted(self._grid.items(), key=lambda item: item[0][1])` sorts the items
by the column index of the key; Python's sort is stable, which
`List.mergeSort` also is. -/
def leColItem (a b : (Nat × Nat) × Mark) : Bool :=
  a.1.2 ≤ b.1.2

/-- `TicTacToe._does_win(entry_type)`: the tuple
`(horizontal_win, vertical_win, diagonal_descending_win, diagonal_ascending_win)`. -/
def TicTacToe.does_win (t : TicTacToe) (entry_type : Mark) :
    Bool × Bool × Bool × Bool :=
  let n := t._n_dimensions
  let numCells := (rowMajorCoords n).length
  let horizontal_win := straight_check entry_type n (gridItems t)
  let vertical_win := straight_check entry_type n ((gridItems t).mergeSort leColItem)
  let values := gridValues t
  let diagonal_descending_win := diagonal_check entry_type n numCells values (n + 1) 0
  let diagonal_ascending_win :=
    diagonal_check entry_type n numCells values.reverse (n - 1) (n - 1)
  (horizontal_win, vertical_win, diagonal_descending_win, diagonal_ascending_win)

/-- The four exceptions `draw` can raise.  `gameFinished` is the
`RuntimeError`; the other three are the `ValueError`s with their three
distinct messages (out of turn / coordinate not a grid key / cell not empty). -/
inductive DrawError where
  | gameFinished
  | outOfTurn
  | outOfBounds
  | cellOccupied
  deriving DecidableEq

/-- The grid key a (checked, in-bounds) coordinate denotes. -/
def gridKey (c : Int × Int) : Nat × Nat :=
  (c.1.toNat, c.2.toNat)

/-- `coordinate in self._grid.keys()`: the key set is exactly
`[0,n) × [0,n)`. -/
def hasKey (n : Nat) (c : Int × Int) : Bool :=
  0 ≤ c.1 && c.1 < (n : Int) && 0 ≤ c.2 && c.2 < (n : Int)

/-- `TicTacToe.draw(entry, coordinate)`.  A raised exception becomes an
`Except.error` carrying the state of the object at the moment of the raise;
success returns the `bool` result and the updated state.  The `print` calls
are dropped. -/
def TicTacToe.draw (t : TicTacToe) (entry : Mark) (coordinate : Int × Int) :
    Except (DrawError × TicTacToe) (Bool × TicTacToe) :=
  if t.finished then .error (.gameFinished, t)
  else if t._last_draw == entry then .error (.outOfTurn, t)
  else if !hasKey t._n_dimensions coordinate then .error (.outOfBounds, t)
  else if t._grid (gridKey coordinate) != Draw.Empty then .error (.cellOccupied, t)
  else
    let t1 : TicTacToe :=
      { t with _grid := Function.update t._grid (gridKey coordinate) entry
               _last_draw := entry }
    if t._n_dimensions * 2 - 1 ≤ filledCount t1 then
      let wins := t1.does_win entry
      let t2 := if wins.1 then showWinner t1 else t1
      let t3 := if wins.2.1 then showWinner t2 else t2
      let t4 := if wins.2.2.1 then showWinner t3 else t3
      let t5 := if wins.2.2.2 then showWinner t4 else t4
      .ok (wins.1 || wins.2.1 || wins.2.2.1 || wins.2.2.2, t5)
    else
      .ok (false, t1)

/-- The `ValueError` of `__init__` for `n_dimensions < 3`. -/
inductive InitError where
  | invalidDimension
  deriving DecidableEq

/-- `TicTacToe.__init__(n_dimensions)`: rejects `n_dimensions < 3`, otherwise
builds the board with every cell `Draw.Empty`, `_last_draw = Draw.Empty`,
`_finished = False`. -/
def tictactoe_init (n_dimensions : Int) : Except InitError TicTacToe :=
  if n_dimensions < 3 then .error .invalidDimension
  else
    .ok { _n_dimensions := n_dimensions.toNat
          _finished := false
          _last_draw := Draw.Empty
          _grid := fun _ => Draw.Empty }

/-! ### Specification-side win predicates

These four definitions follow the spec's words for the four win axes
("some row with every cell equal to mark"; "some column with every cell equal
to mark"; "the descending diagonal (0,0),(1,1),…,(n-1,n-1) all equal to mark";
"the ascending diagonal (n-1,0),(n-2,1),…,(0,n-1) all equal to mark").  They
are what `_does_win` is compared against. -/

/-- Spec: some row has every cell equal to `m`. -/
def spec_rowWin (t : TicTacToe) (m : Mark) : Bool :=
  (List.range t._n_dimensions).any fun x =>
    (List.range t._n_dimensions).all fun y => t._grid (x, y) == m

/-- Spec: some column has every cell equal to `m`. -/
def spec_colWin (t : TicTacToe) (m : Mark) : Bool :=
  (List.range t._n_dimensions).any fun y =>
    (List.range t._n_dimensions).all fun x => t._grid (x, y) == m

/-- Spec: the descending diagonal `(0,0),(1,1),…,(n-1,n-1)` is all `m`. -/
def spec_diagDescWin (t : TicTacToe) (m : Mark) : Bool :=
  (List.range t._n_dimensions).all fun k => t._grid (k, k) == m

/-- Spec: the ascending diagonal `(n-1,0),(n-2,1),…,(0,n-1)` is all `m`. -/
def spec_diagAscWin (t : TicTacToe) (m : Mark) : Bool :=
  (List.range t._n_dimensions).all fun k =>
    t._grid (t._n_dimensions - 1 - k, k) == m

/-- Spec: at least one of the four axes is complete for `m`. -/
def spec_anyWin (t : TicTacToe) (m : Mark) : Bool :=
  spec_rowWin t m || spec_colWin t m || spec_diagDescWin t m || spec_diagAscWin t m

/-! ### The grid key list -/

theorem rowMajorCoords_eq_product (n : Nat) :
    rowMajorCoords n = (List.range n).product (List.range n) := rfl

theorem mem_rowMajorCoords {n : Nat} {p : Nat × Nat} :
    p ∈ rowMajorCoords n ↔ p.1 < n ∧ p.2 < n := by
  obtain ⟨x, y⟩ := p
  rw [rowMajorCoords_eq_product]
  simp [List.mem_product]

theorem nodup_rowMajorCoords (n : Nat) : (rowMajorCoords n).Nodup := by
  rw [rowMajorCoords_eq_product]
  exact (List.nodup_range n).product (List.nodup_range n)

theorem length_rowMajorCoords (n : Nat) : (rowMajorCoords n).length = n * n := by
  have h : rowMajorCoords n = (List.range n) ×ˢ (List.range n) := rfl
  rw [h, List.length_product, List.length_range]

theorem rowMajorCoords_flatten (n : Nat) :
    rowMajorCoords n =
      ((List.range n).map fun x => (List.range n).map fun y => (x, y)).flatten := rfl

theorem getElem?_flatten_uniform {α : Type _} {m : Nat} :
    ∀ (L : List (List α)) (x y : Nat), (∀ l ∈ L, l.length = m) → y < m →
      L.flatten[x * m + y]? = L[x]?.bind fun l => l[y]?
  | [], x, y, _, _ => by simp
  | l :: L, x, y, h, hy => by
    have hl : l.length = m := h l (List.mem_cons_self l L)
    cases x with
    | zero =>
      rw [List.flatten_cons, Nat.zero_mul, Nat.zero_add, List.getElem?_append,
        if_pos (by omega)]
      simp
    | succ x =>
      rw [List.flatten_cons, List.getElem?_append_right (by rw [hl, Nat.succ_mul]; omega)]
      have harith : (x + 1) * m + y - l.length = x * m + y := by
        rw [hl, Nat.succ_mul]; omega
      rw [harith, getElem?_flatten_uniform L x y (fun l' hl' => h l' (List.mem_cons_of_mem _ hl')) hy]
      simp

theorem getElem?_rowMajorCoords {n x y : Nat} (hx : x < n) (hy : y < n) :
    (rowMajorCoords n)[x * n + y]? = some (x, y) := by
  rw [rowMajorCoords_flatten, getElem?_flatten_uniform _ x y ?_ hy]
  · rw [List.getElem?_map, List.getElem?_range hx]
    simp [List.getElem?_map, List.getElem?_range hy]
  · intro l hl
    simp only [List.mem_map] at hl
    obtain ⟨a, _, rfl⟩ := hl
    simp

theorem getElem?_gridValues {t : TicTacToe} {x y : Nat}
    (hx : x < t._n_dimensions) (hy : y < t._n_dimensions) :
    (gridValues t)[x * t._n_dimensions + y]? = some (t._grid (x, y)) := by
  unfold gridValues
  rw [List.getElem?_map, getElem?_rowMajorCoords hx hy]
  rfl

theorem length_gridValues (t : TicTacToe) :
    (gridValues t).length = t._n_dimensions * t._n_dimensions := by
  unfold gridValues
  rw [List.length_map, length_rowMajorCoords]

/-! ### `_straight_check` scans the list in chunks of `n` -/

theorem straightCheckGo_cons (m : Mark) (n : Nat) (e : List Mark)
    (item : (Nat × Nat) × Mark) (rest : List ((Nat × Nat) × Mark)) :
    straightCheckGo m n e (item :: rest) =
      if e.length ≤ n then
        if (e ++ [item.2]).length == n then
          if (e ++ [item.2]).all (· == m) then true
          else straightCheckGo m n [] rest
        else straightCheckGo m n (e ++ [item.2]) rest
      else straightCheckGo m n e rest := rfl

theorem straightCheckGo_append (m : Mark) (n : Nat) :
    ∀ (c : List ((Nat × Nat) × Mark)) (e : List Mark)
      (rest : List ((Nat × Nat) × Mark)), c ≠ [] → e.length + c.length = n →
      straightCheckGo m n e (c ++ rest) =
        if (e ++ c.map (·.2)).all (· == m) then true
        else straightCheckGo m n [] rest
  | [], _, _, hc, _ => absurd rfl hc
  | [item], e, rest, _, hlen => by
    have hlen' : e.length + 1 = n := by simpa using hlen
    rw [List.cons_append, List.nil_append, straightCheckGo_cons,
      if_pos (by omega : e.length ≤ n)]
    have hbeq : ((e ++ [item.2]).length == n) = true := by
      rw [beq_iff_eq, List.length_append, List.length_singleton]; omega
    rw [if_pos hbeq]
    simp only [List.map_cons, List.map_nil]
  | item :: next :: c, e, rest, _, hlen => by
    have hlen' : e.length + (c.length + 2) = n := by simpa using hlen
    rw [List.cons_append, straightCheckGo_cons, if_pos (by omega : e.length ≤ n)]
    have hbeq : ¬((e ++ [item.2]).length == n) = true := by
      rw [beq_iff_eq, List.length_append, List.length_singleton]; omega
    rw [if_neg hbeq]
    rw [straightCheckGo_append m n (next :: c) (e ++ [item.2]) rest (by simp)
      (by simp only [List.length_append, List.length_singleton, List.length_cons,
        List.length_nil]; omega)]
    have happ : e ++ [item.2] ++ (next :: c).map (·.2) =
        e ++ (item :: next :: c).map (·.2) := by
      simp
    rw [happ]

theorem straight_check_flatten (m : Mark) (n : Nat) (hn : 0 < n)
    (chunks : List (List ((Nat × Nat) × Mark)))
    (h : ∀ c ∈ chunks, c.length = n) :
    straight_check m n chunks.flatten =
      chunks.any fun c => (c.map (·.2)).all (· == m) := by
  induction chunks with
  | nil => rfl
  | cons c chunks ih =>
    have hc : c.length = n := h c (List.mem_cons_self c chunks)
    have hcne : c ≠ [] := by intro hnil; rw [hnil] at hc; simp at hc; omega
    rw [List.flatten_cons]
    unfold straight_check
    rw [straightCheckGo_append m n c [] chunks.flatten hcne (by simp [hc])]
    simp only [List.nil_append, List.any_cons]
    by_cases hall : ((c.map (·.2)).all (· == m)) = true
    · simp [hall]
    · simp only [Bool.not_eq_true] at hall
      simp only [hall, Bool.false_eq_true, if_false, Bool.false_or]
      exact ih fun c' hc' => h c' (List.mem_cons_of_mem _ hc')

theorem list_any_map {α β : Type _} (f : α → β) (l : List α) (p : β → Bool) :
    (l.map f).any p = l.any fun a => p (f a) := by
  induction l with
  | nil => rfl
  | cons a l ih => simp only [List.map_cons, List.any_cons, ih]

theorem list_all_map {α β : Type _} (f : α → β) (l : List α) (p : β → Bool) :
    (l.map f).all p = l.all fun a => p (f a) := by
  induction l with
  | nil => rfl
  | cons a l ih => simp only [List.map_cons, List.all_cons, ih]

/-- The items of row `x`, in insertion order. -/
def itemRow (t : TicTacToe) (x : Nat) : List ((Nat × Nat) × Mark) :=
  (List.range t._n_dimensions).map fun y => ((x, y), t._grid (x, y))

theorem gridItems_flatten (t : TicTacToe) :
    gridItems t = ((List.range t._n_dimensions).map (itemRow t)).flatten := by
  unfold gridItems itemRow
  rw [rowMajorCoords_flatten, List.map_flatten, List.map_map]
  simp [Function.comp_def, List.map_map]

theorem horizontal_win_eq (t : TicTacToe) (m : Mark) (hn : 0 < t._n_dimensions) :
    straight_check m t._n_dimensions (gridItems t) = spec_rowWin t m := by
  rw [gridItems_flatten,
    straight_check_flatten m t._n_dimensions hn _ (by
      intro c hc
      simp only [List.mem_map] at hc
      obtain ⟨x, _, rfl⟩ := hc
      simp [itemRow])]
  unfold spec_rowWin itemRow
  rw [list_any_map]
  congr 1
  funext x
  rw [List.map_map, list_all_map]
  rfl

/-! ### `_diagonal_check` picks out exactly the two diagonals -/

theorem range'_take {s step : Nat} : ∀ (k len : Nat), k ≤ len →
    (List.range' s len step).take k = List.range' s k step := by
  intro k
  induction k generalizing s with
  | zero => intro len _; simp [List.range']
  | succ k ih =>
    intro len h
    match len with
    | 0 => omega
    | len + 1 =>
      rw [List.range'_succ, List.take_succ_cons, List.range'_succ,
        ih (s := s + step) len (by omega)]

theorem pyRange_desc (n : Nat) :
    pyRange 0 (n * n) (n + 1) = List.range' 0 n (n + 1) := by
  unfold pyRange
  congr 1
  have h : n * n - 0 + (n + 1) - 1 = n * (n + 1) := by
    rw [Nat.mul_succ]; omega
  rw [h, Nat.mul_div_cancel _ (Nat.succ_pos n)]

theorem pyRange_asc {n : Nat} (hn : 2 ≤ n) :
    pyRange (n - 1) (n * n) (n - 1) = List.range' (n - 1) (n + 1) (n - 1) := by
  obtain ⟨m, rfl⟩ : ∃ m, n = m + 2 := ⟨n - 2, by omega⟩
  unfold pyRange
  congr 1
  have ha : (m + 2) * (m + 2) = m * m + 4 * m + 4 := by ring
  have hb : (m + 3) * (m + 1) = m * m + 4 * m + 3 := by ring
  have h : (m + 2) * (m + 2) - (m + 2 - 1) + (m + 2 - 1) - 1 = (m + 3) * (m + 1) := by
    omega
  rw [h, show m + 2 - 1 = m + 1 from rfl,
    Nat.mul_div_cancel _ (by omega : 0 < m + 1)]

theorem diagonal_desc_eq (t : TicTacToe) (m : Mark) :
    diagonal_check m t._n_dimensions ((rowMajorCoords t._n_dimensions).length)
      (gridValues t) (t._n_dimensions + 1) 0 = spec_diagDescWin t m := by
  set n := t._n_dimensions with hn
  unfold diagonal_check spec_diagDescWin
  rw [length_rowMajorCoords, pyRange_desc, range'_take n n (Nat.le_refl n),
    list_all_map, Bool.eq_iff_iff, List.all_eq_true, List.all_eq_true]
  constructor
  · intro h k hk
    rw [List.mem_range] at hk
    have hmem : 0 + (n + 1) * k ∈ List.range' 0 n (n + 1) :=
      List.mem_range'.mpr ⟨k, hk, rfl⟩
    have hx := h _ hmem
    rw [List.getD_eq_getElem?_getD, show 0 + (n + 1) * k = k * n + k by ring,
      getElem?_gridValues hk hk] at hx
    simpa using hx
  · intro h i hi
    rw [List.mem_range'] at hi
    obtain ⟨k, hk, rfl⟩ := hi
    rw [List.getD_eq_getElem?_getD, show 0 + (n + 1) * k = k * n + k by ring,
      getElem?_gridValues hk hk]
    simpa using h k (List.mem_range.mpr hk)

theorem diagonal_asc_eq (t : TicTacToe) (m : Mark) (hn2 : 2 ≤ t._n_dimensions) :
    diagonal_check m t._n_dimensions ((rowMajorCoords t._n_dimensions).length)
      (gridValues t).reverse (t._n_dimensions - 1) (t._n_dimensions - 1) =
      spec_diagAscWin t m := by
  set n := t._n_dimensions with hn
  unfold diagonal_check spec_diagAscWin
  rw [length_rowMajorCoords, pyRange_asc hn2, range'_take n (n + 1) (Nat.le_succ n),
    list_all_map, Bool.eq_iff_iff, List.all_eq_true, List.all_eq_true]
  have hrev : ∀ k, k < n →
      ((gridValues t).reverse.getD (n - 1 + (n - 1) * k) Draw.Empty) =
        t._grid (n - 1 - k, k) := by
    intro k hk
    obtain ⟨q, hq⟩ : ∃ q, k + q + 1 = n := ⟨n - 1 - k, by omega⟩
    have hn1 : n - 1 = k + q := by omega
    have hqk : n - 1 - k = q := by omega
    rw [hqk, hn1]
    have hc : (k + q + 1) * (k + q + 1) =
        (k + q + (k + q) * k) + (q * (k + q + 1) + k) + 1 := by ring
    have hlen : (gridValues t).length = n * n := by
      rw [length_gridValues, ← hn]
    have hidx : k + q + (k + q) * k < (gridValues t).length := by
      rw [hlen, ← hq]; omega
    rw [List.getD_eq_getElem?_getD, List.getElem?_reverse hidx, hlen]
    have harith : n * n - 1 - (k + q + (k + q) * k) = q * n + k := by
      rw [← hq]; omega
    rw [harith, getElem?_gridValues (by omega) hk]
    rfl
  constructor
  · intro h k hk
    rw [List.mem_range] at hk
    have hmem : n - 1 + (n - 1) * k ∈ List.range' (n - 1) n (n - 1) :=
      List.mem_range'.mpr ⟨k, hk, rfl⟩
    have hx := h _ hmem
    rw [hrev k hk] at hx
    exact hx
  · intro h i hi
    rw [List.mem_range'] at hi
    obtain ⟨k, hk, rfl⟩ := hi
    rw [hrev k hk]
    exact h k (List.mem_range.mpr hk)

/-! ### The stable sort by column index produces column-major order -/

/-- Column-major key order: for each column `y` in increasing order, the cells
`(0,y),…,(n-1,y)`.  This is what Python's stable `sorted(..., key=col)`
produces from the row-major key list; proved below
(`rowMajorCoords_mergeSort`). -/
def colMajorCoords (n : Nat) : List (Nat × Nat) :=
  (List.range n).flatMap fun y => (List.range n).map fun x => (x, y)

/-- The sort key of `sorted(self._grid.items(), key=...)`, acting on keys. -/
def leColCoord (a b : Nat × Nat) : Bool :=
  a.2 ≤ b.2

/-- `colMajorCoords`, with each cell paired with its position in the
row-major list. -/
def colMajorEnum (n : Nat) : List (Nat × (Nat × Nat)) :=
  (List.range n).flatMap fun y => (List.range n).map fun x => (x * n + y, (x, y))

theorem colMajorCoords_eq_map_swap (n : Nat) :
    colMajorCoords n = (rowMajorCoords n).map Prod.swap := by
  unfold colMajorCoords rowMajorCoords
  rw [List.map_flatMap]
  simp [List.map_map, Function.comp_def, Prod.swap]

theorem nodup_colMajorCoords (n : Nat) : (colMajorCoords n).Nodup := by
  rw [colMajorCoords_eq_map_swap]
  exact (nodup_rowMajorCoords n).map Prod.swap_injective

theorem colMajorEnum_eq_map (n : Nat) :
    colMajorEnum n = (colMajorCoords n).map fun p => (p.1 * n + p.2, p) := by
  unfold colMajorEnum colMajorCoords
  rw [List.map_flatMap]
  simp [List.map_map, Function.comp_def]

theorem nodup_colMajorEnum (n : Nat) : (colMajorEnum n).Nodup := by
  rw [colMajorEnum_eq_map]
  exact (nodup_colMajorCoords n).map fun a b h => congrArg Prod.snd h

theorem mem_colMajorEnum {n : Nat} {p : Nat × (Nat × Nat)} :
    p ∈ colMajorEnum n ↔
      p.2.1 < n ∧ p.2.2 < n ∧ p.1 = p.2.1 * n + p.2.2 := by
  obtain ⟨i, x, y⟩ := p
  unfold colMajorEnum
  simp only [List.mem_flatMap, List.mem_map, List.mem_range]
  constructor
  · rintro ⟨y', hy', x', hx', h⟩
    obtain ⟨rfl, rfl, rfl⟩ : x' = x ∧ y' = y ∧ i = x' * n + y' := by
      refine ⟨congrArg (Prod.fst ∘ Prod.snd) h, congrArg (Prod.snd ∘ Prod.snd) h,
        (congrArg Prod.fst h).symm⟩
    exact ⟨hx', hy', rfl⟩
  · rintro ⟨hx, hy, rfl⟩
    exact ⟨y, hy, x, hx, rfl⟩

theorem mem_enum_rowMajor {n : Nat} {p : Nat × (Nat × Nat)} :
    p ∈ (rowMajorCoords n).enum ↔ p ∈ colMajorEnum n := by
  obtain ⟨i, x, y⟩ := p
  rw [List.mk_mem_enum_iff_getElem?, mem_colMajorEnum]
  show (rowMajorCoords n)[i]? = some (x, y) ↔ x < n ∧ y < n ∧ i = x * n + y
  constructor
  · intro h
    have hi : i < (rowMajorCoords n).length := by
      by_contra hcon
      rw [List.getElem?_eq_none (by omega)] at h
      exact Option.noConfusion h
    rw [length_rowMajorCoords] at hi
    have hn : 0 < n := by
      rcases Nat.eq_zero_or_pos n with h0 | h0
      · subst h0; omega
      · exact h0
    have hx : i / n < n := (Nat.div_lt_iff_lt_mul hn).mpr hi
    have hy : i % n < n := Nat.mod_lt _ hn
    have hidx : (i / n) * n + i % n = i := by
      have h1 := Nat.div_add_mod i n
      have h2 := Nat.mul_comm (i / n) n
      omega
    rw [← hidx, getElem?_rowMajorCoords hx hy] at h
    obtain ⟨rfl, rfl⟩ : x = i / n ∧ y = i % n := by
      have hinj := Option.some_inj.mp h
      exact ⟨(congrArg Prod.fst hinj).symm, (congrArg Prod.snd hinj).symm⟩
    exact ⟨hx, hy, hidx.symm⟩
  · rintro ⟨hx, hy, rfl⟩
    exact getElem?_rowMajorCoords hx hy

theorem sorted_colMajorEnum (n : Nat) :
    (colMajorEnum n).Pairwise fun a b => List.enumLE leColCoord a b = true := by
  unfold colMajorEnum
  rw [List.pairwise_flatMap]
  constructor
  · intro y _
    rw [List.pairwise_map]
    refine (List.pairwise_lt_range n).imp ?_
    intro x x' hxx'
    simp only [List.enumLE, leColCoord]
    rw [if_pos (by simp), if_pos (by simp)]
    simp only [decide_eq_true_eq]
    have := Nat.mul_le_mul_right n (Nat.le_of_lt hxx')
    omega
  · refine (List.pairwise_lt_range n).imp ?_
    intro y y' hyy' a ha b hb
    simp only [List.mem_map, List.mem_range] at ha hb
    obtain ⟨x, _, rfl⟩ := ha
    obtain ⟨x', _, rfl⟩ := hb
    simp only [List.enumLE, leColCoord]
    rw [if_pos (by simpa using Nat.le_of_lt hyy'), if_neg (by simpa using hyy')]

theorem leColCoord_trans (a b c : Nat × Nat) :
    leColCoord a b → leColCoord b c → leColCoord a c := by
  unfold leColCoord
  simp only [decide_eq_true_eq]
  omega

theorem leColCoord_total (a b : Nat × Nat) :
    leColCoord a b || leColCoord b a := by
  unfold leColCoord
  rcases Nat.le_total a.2 b.2 with h | h <;> simp [h]

theorem enum_rowMajor_mergeSort (n : Nat) :
    ((rowMajorCoords n).enum).mergeSort (List.enumLE leColCoord) =
      colMajorEnum n := by
  apply @List.Perm.eq_of_sorted (Nat × (Nat × Nat))
    (fun a b => List.enumLE leColCoord a b = true)
  · intro a b ha hb hab hba
    rw [List.mem_mergeSort] at ha
    rw [← mem_enum_rowMajor] at hb
    obtain ⟨i, c⟩ := a
    obtain ⟨j, d⟩ := b
    simp only [List.enumLE] at hab hba
    cases hcd : leColCoord c d <;> cases hdc : leColCoord d c <;>
      simp [hcd, hdc] at hab hba
    obtain rfl : i = j := Nat.le_antisymm hab hba
    rw [List.mk_mem_enum_iff_getElem?] at ha hb
    rw [Prod.mk.injEq]
    exact ⟨rfl, Option.some_inj.mp (ha.symm.trans hb)⟩
  · exact List.sorted_mergeSort (List.enumLE_trans leColCoord_trans)
      (List.enumLE_total leColCoord_total) _
  · exact sorted_colMajorEnum n
  · exact (List.mergeSort_perm _ _).trans
      ((List.perm_ext_iff_of_nodup
        ((List.Nodup.of_map Prod.fst) (by rw [List.enum_map_fst]; exact List.nodup_range _))
        (nodup_colMajorEnum n)).mpr fun a => mem_enum_rowMajor)

theorem rowMajorCoords_mergeSort (n : Nat) :
    (rowMajorCoords n).mergeSort leColCoord = colMajorCoords n := by
  rw [← List.mergeSort_enum, enum_rowMajor_mergeSort, colMajorEnum_eq_map,
    List.map_map]
  simp [Function.comp_def]

theorem gridItems_mergeSort (t : TicTacToe) :
    (gridItems t).mergeSort leColItem =
      (colMajorCoords t._n_dimensions).map fun c => (c, t._grid c) := by
  unfold gridItems
  rw [← List.map_mergeSort (r := leColCoord) (s := leColItem)
      (f := fun c => (c, t._grid c)) (fun a _ b _ => rfl),
    rowMajorCoords_mergeSort]

/-- The items of column `y`, in the order the stable sort produces them. -/
def itemCol (t : TicTacToe) (y : Nat) : List ((Nat × Nat) × Mark) :=
  (List.range t._n_dimensions).map fun x => ((x, y), t._grid (x, y))

theorem colMajor_items_flatten (t : TicTacToe) :
    ((colMajorCoords t._n_dimensions).map fun c => (c, t._grid c)) =
      ((List.range t._n_dimensions).map (itemCol t)).flatten := by
  unfold colMajorCoords itemCol
  rw [List.map_flatMap]
  simp only [List.map_map, Function.comp_def]
  rfl

theorem vertical_win_eq (t : TicTacToe) (m : Mark) (hn : 0 < t._n_dimensions) :
    straight_check m t._n_dimensions ((gridItems t).mergeSort leColItem) =
      spec_colWin t m := by
  rw [gridItems_mergeSort, colMajor_items_flatten,
    straight_check_flatten m t._n_dimensions hn _ (by
      intro c hc
      simp only [List.mem_map] at hc
      obtain ⟨y, _, rfl⟩ := hc
      simp [itemCol])]
  unfold spec_colWin itemCol
  rw [list_any_map]
  congr 1
  funext y
  rw [List.map_map, list_all_map]
  rfl

/-- `_does_win` computes exactly the four specification axes (for any board
with `n ≥ 2`; real boards always have `n ≥ 3`). -/
theorem does_win_eq (t : TicTacToe) (m : Mark) (hn : 2 ≤ t._n_dimensions) :
    t.does_win m = (spec_rowWin t m, spec_colWin t m, spec_diagDescWin t m,
      spec_diagAscWin t m) := by
  show (straight_check m t._n_dimensions (gridItems t),
      straight_check m t._n_dimensions ((gridItems t).mergeSort leColItem),
      diagonal_check m t._n_dimensions ((rowMajorCoords t._n_dimensions).length)
        (gridValues t) (t._n_dimensions + 1) 0,
      diagonal_check m t._n_dimensions ((rowMajorCoords t._n_dimensions).length)
        (gridValues t).reverse (t._n_dimensions - 1) (t._n_dimensions - 1)) =
    (spec_rowWin t m, spec_colWin t m, spec_diagDescWin t m, spec_diagAscWin t m)
  rw [horizontal_win_eq t m (by omega), vertical_win_eq t m (by omega),
    diagonal_desc_eq, diagonal_asc_eq t m hn]

/-! ### Characterizing `draw` -/

/-- The state right after the two assignments
`self._grid[coordinate] = entry; self._last_draw = entry`. -/
def placed (t : TicTacToe) (entry : Mark) (c : Int × Int) : TicTacToe :=
  { t with _grid := Function.update t._grid (gridKey c) entry
           _last_draw := entry }

theorem showWinner_showWinner (t : TicTacToe) :
    showWinner (showWinner t) = showWinner t := rfl

theorem placed_fold (t : TicTacToe) (entry : Mark) (c : Int × Int) :
    ({ t with _grid := Function.update t._grid (gridKey c) entry
              _last_draw := entry } : TicTacToe) = placed t entry c := rfl

/-- `any(wins)` for the tuple returned by `_does_win`. -/
def rawWins (t1 : TicTacToe) (entry : Mark) : Bool :=
  (t1.does_win entry).1 || (t1.does_win entry).2.1 ||
    (t1.does_win entry).2.2.1 || (t1.does_win entry).2.2.2

theorem draw_eq_of_pre {t : TicTacToe} {entry : Mark} {c : Int × Int}
    (h1 : t.finished = false) (h2 : (t._last_draw == entry) = false)
    (h3 : hasKey t._n_dimensions c = true)
    (h4 : t._grid (gridKey c) = Draw.Empty) :
    t.draw entry c =
      if t._n_dimensions * 2 - 1 ≤ filledCount (placed t entry c) then
        .ok (rawWins (placed t entry c) entry,
          if rawWins (placed t entry c) entry then showWinner (placed t entry c)
          else placed t entry c)
      else .ok (false, placed t entry c) := by
  unfold TicTacToe.draw
  rw [if_neg (by simp [h1]), if_neg (by simp [h2]), if_neg (by simp [h3]),
    if_neg (by simp [h4])]
  dsimp only []
  rw [placed_fold]
  simp only [rawWins]
  split
  · by_cases hw1 : ((placed t entry c).does_win entry).1 <;>
    by_cases hw2 : ((placed t entry c).does_win entry).2.1 <;>
    by_cases hw3 : ((placed t entry c).does_win entry).2.2.1 <;>
    by_cases hw4 : ((placed t entry c).does_win entry).2.2.2 <;>
      simp [hw1, hw2, hw3, hw4, showWinner_showWinner]
  · rfl

theorem draw_ok_pre {t : TicTacToe} {entry : Mark} {c : Int × Int}
    {won : Bool} {t' : TicTacToe} (h : t.draw entry c = .ok (won, t')) :
    t.finished = false ∧ t._last_draw ≠ entry ∧
      hasKey t._n_dimensions c = true ∧ t._grid (gridKey c) = Draw.Empty := by
  unfold TicTacToe.draw at h
  split at h
  · exact absurd h (by simp)
  · next hc1 =>
    split at h
    · exact absurd h (by simp)
    · next hc2 =>
      split at h
      · exact absurd h (by simp)
      · next hc3 =>
        split at h
        · exact absurd h (by simp)
        · next hc4 =>
          refine ⟨by simpa using hc1, ?_, by simpa using hc3, by simpa using hc4⟩
          intro heq
          exact hc2 (by simp [heq])

/-- Every raise site in `draw` comes before the two mutating assignments, so
the state carried out with an error is the entry state. -/
theorem draw_error_state {t : TicTacToe} {entry : Mark} {c : Int × Int}
    {e : DrawError} {t' : TicTacToe}
    (h : t.draw entry c = .error (e, t')) : t' = t := by
  unfold TicTacToe.draw at h
  split at h
  · exact (congrArg Prod.snd (Except.error.inj h)).symm
  · split at h
    · exact (congrArg Prod.snd (Except.error.inj h)).symm
    · split at h
      · exact (congrArg Prod.snd (Except.error.inj h)).symm
      · split at h
        · exact (congrArg Prod.snd (Except.error.inj h)).symm
        · dsimp only [] at h
          split at h <;> exact absurd h (by simp)

theorem draw_error_finished {t : TicTacToe} {entry : Mark} {c : Int × Int}
    (h1 : t.finished = true) :
    t.draw entry c = .error (.gameFinished, t) := by
  unfold TicTacToe.draw
  rw [if_pos h1]

theorem draw_error_turn {t : TicTacToe} {entry : Mark} {c : Int × Int}
    (h1 : t.finished = false) (h2 : t._last_draw = entry) :
    t.draw entry c = .error (.outOfTurn, t) := by
  unfold TicTacToe.draw
  rw [if_neg (by simp [h1]), if_pos (by simp [h2])]

theorem draw_error_bounds {t : TicTacToe} {entry : Mark} {c : Int × Int}
    (h1 : t.finished = false) (h2 : t._last_draw ≠ entry)
    (h3 : hasKey t._n_dimensions c = false) :
    t.draw entry c = .error (.outOfBounds, t) := by
  unfold TicTacToe.draw
  rw [if_neg (by simp [h1]), if_neg (by simp only [beq_iff_eq]; exact h2),
    if_pos (by simp [h3])]

theorem draw_error_occupied {t : TicTacToe} {entry : Mark} {c : Int × Int}
    (h1 : t.finished = false) (h2 : t._last_draw ≠ entry)
    (h3 : hasKey t._n_dimensions c = true)
    (h4 : t._grid (gridKey c) ≠ Draw.Empty) :
    t.draw entry c = .error (.cellOccupied, t) := by
  unfold TicTacToe.draw
  rw [if_neg (by simp [h1]), if_neg (by simp only [beq_iff_eq]; exact h2),
    if_neg (by simp [h3]), if_pos (by simp [h4])]

/-! ### Counting cells -/

/-- The number of cells currently holding mark `m`. -/
def countMark (t : TicTacToe) (m : Mark) : Nat :=
  (gridValues t).countP (· == m)

theorem filledCount_eq_countP (t : TicTacToe) :
    filledCount t = (gridValues t).countP (· != Draw.Empty) := by
  unfold filledCount
  rw [List.countP_eq_length_filter]

theorem map_update_of_mem {α β : Type _} [DecidableEq α] {l : List α} {a : α}
    (hnd : l.Nodup) (hmem : a ∈ l) (f : α → β) (v : β) :
    ∃ l1 l2, l = l1 ++ a :: l2 ∧
      l.map (Function.update f a v) = l1.map f ++ v :: l2.map f := by
  obtain ⟨l1, l2, rfl⟩ := List.mem_iff_append.mp hmem
  refine ⟨l1, l2, rfl, ?_⟩
  rw [List.nodup_append] at hnd
  obtain ⟨h1, h2, hdisj⟩ := hnd
  have ha1 : a ∉ l1 := fun hmem1 => hdisj hmem1 (List.mem_cons_self a l2)
  have ha2 : a ∉ l2 := (List.nodup_cons.mp h2).1
  rw [List.map_append, List.map_cons]
  congr 1
  · apply List.map_congr_left
    intro x hx
    apply Function.update_noteq
    intro hxa
    exact ha1 (hxa ▸ hx)
  · congr 1
    · exact Function.update_same a v f
    · apply List.map_congr_left
      intro x hx
      apply Function.update_noteq
      intro hxa
      exact ha2 (hxa ▸ hx)

theorem countP_map_update {α : Type _} [DecidableEq α] {l : List α} {a : α}
    (hnd : l.Nodup) (hmem : a ∈ l) (f : α → Mark) (v : Mark) (p : Mark → Bool) :
    (l.map (Function.update f a v)).countP p + (if p (f a) then 1 else 0) =
      (l.map f).countP p + (if p v then 1 else 0) := by
  obtain ⟨l1, l2, hsplit, hmap⟩ := map_update_of_mem hnd hmem f v
  rw [hmap, hsplit, List.map_append, List.map_cons,
    List.countP_append, List.countP_cons, List.countP_append, List.countP_cons]
  by_cases hv : p v = true <;> by_cases hfa : p (f a) = true <;>
    simp [hv, hfa] <;> omega

theorem gridKey_mem {t : TicTacToe} {c : Int × Int}
    (h : hasKey t._n_dimensions c = true) :
    gridKey c ∈ rowMajorCoords t._n_dimensions := by
  rw [mem_rowMajorCoords]
  unfold hasKey at h
  unfold gridKey
  simp only [Bool.and_eq_true, decide_eq_true_eq] at h
  constructor <;> simp only [] <;> omega

theorem gridValues_placed (t : TicTacToe) (entry : Mark) (c : Int × Int) :
    gridValues (placed t entry c) =
      (rowMajorCoords t._n_dimensions).map
        (Function.update t._grid (gridKey c) entry) := rfl

theorem filledCount_placed {t : TicTacToe} {entry : Mark} {c : Int × Int}
    (hk : hasKey t._n_dimensions c = true)
    (hold : t._grid (gridKey c) = Draw.Empty) (hne : entry ≠ Draw.Empty) :
    filledCount (placed t entry c) = filledCount t + 1 := by
  have h := countP_map_update (nodup_rowMajorCoords t._n_dimensions)
    (gridKey_mem hk) t._grid entry (· != Draw.Empty)
  rw [hold] at h
  have hval1 : (if (Draw.Empty != Draw.Empty) = true then 1 else 0) = 0 := by simp
  have hval2 : (if (entry != Draw.Empty) = true then 1 else 0) = 1 := by
    simp only [bne_iff_ne]
    exact if_pos hne
  rw [hval1, hval2] at h
  rw [filledCount_eq_countP, filledCount_eq_countP, gridValues_placed]
  unfold gridValues
  omega

theorem countMark_placed {t : TicTacToe} {entry : Mark} {c : Int × Int} {m : Mark}
    (hk : hasKey t._n_dimensions c = true)
    (hold : t._grid (gridKey c) = Draw.Empty) (hm : m ≠ Draw.Empty) :
    countMark (placed t entry c) m =
      countMark t m + (if entry = m then 1 else 0) := by
  have h := countP_map_update (nodup_rowMajorCoords t._n_dimensions)
    (gridKey_mem hk) t._grid entry (· == m)
  rw [hold] at h
  have hval1 : (if (Draw.Empty == m) = true then 1 else 0) = 0 := by
    simp only [beq_iff_eq]
    exact if_neg fun he => hm he.symm
  rw [hval1, Nat.add_zero] at h
  unfold countMark
  rw [gridValues_placed]
  unfold gridValues
  rw [h]
  congr 1
  by_cases hent : entry = m <;> simp [hent]

theorem countP_ge_of_sub {α : Type _} {l S : List α} {p : α → Bool}
    (hS : S.Nodup) (hsub : S ⊆ l) (hall : ∀ a ∈ S, p a = true) :
    S.length ≤ l.countP p := by
  calc S.length = S.countP p := (List.countP_eq_length.mpr hall).symm
    _ ≤ l.countP p := (hS.subperm hsub).countP_le p

/-- A complete axis for `m` puts at least `n` copies of `m` on the board. -/
theorem countMark_ge_of_anyWin {t : TicTacToe} {m : Mark}
    (hwin : spec_anyWin t m = true) :
    t._n_dimensions ≤ countMark t m := by
  have hbase : ∀ (f : Nat → Nat × Nat), Function.Injective f →
      (∀ k, k < t._n_dimensions → f k ∈ rowMajorCoords t._n_dimensions) →
      (∀ k, k < t._n_dimensions → (t._grid (f k) == m) = true) →
      t._n_dimensions ≤ countMark t m := by
    intro f hinj hmem hval
    unfold countMark gridValues
    rw [List.countP_map]
    have hlen : ((List.range t._n_dimensions).map f).length = t._n_dimensions := by
      rw [List.length_map, List.length_range]
    calc t._n_dimensions = ((List.range t._n_dimensions).map f).length := hlen.symm
      _ ≤ (rowMajorCoords t._n_dimensions).countP ((· == m) ∘ t._grid) := by
        apply countP_ge_of_sub (List.Nodup.map hinj (List.nodup_range _))
        · intro a ha
          rw [List.mem_map] at ha
          obtain ⟨k, hk, rfl⟩ := ha
          exact hmem k (List.mem_range.mp hk)
        · intro a ha
          rw [List.mem_map] at ha
          obtain ⟨k, hk, rfl⟩ := ha
          exact hval k (List.mem_range.mp hk)
  unfold spec_anyWin at hwin
  simp only [Bool.or_eq_true] at hwin
  rcases hwin with ((hrow | hcol) | hdesc) | hasc
  · unfold spec_rowWin at hrow
    rw [List.any_eq_true] at hrow
    obtain ⟨x, hx, hall⟩ := hrow
    rw [List.mem_range] at hx
    rw [List.all_eq_true] at hall
    exact hbase (fun y => (x, y)) (fun a b hab => congrArg Prod.snd hab)
      (fun k hk => mem_rowMajorCoords.mpr ⟨hx, hk⟩)
      (fun k hk => hall k (List.mem_range.mpr hk))
  · unfold spec_colWin at hcol
    rw [List.any_eq_true] at hcol
    obtain ⟨y, hy, hall⟩ := hcol
    rw [List.mem_range] at hy
    rw [List.all_eq_true] at hall
    exact hbase (fun x => (x, y)) (fun a b hab => congrArg Prod.fst hab)
      (fun k hk => mem_rowMajorCoords.mpr ⟨hk, hy⟩)
      (fun k hk => hall k (List.mem_range.mpr hk))
  · unfold spec_diagDescWin at hdesc
    rw [List.all_eq_true] at hdesc
    exact hbase (fun k => (k, k)) (fun a b hab => congrArg Prod.fst hab)
      (fun k hk => mem_rowMajorCoords.mpr ⟨hk, hk⟩)
      (fun k hk => hdesc k (List.mem_range.mpr hk))
  · unfold spec_diagAscWin at hasc
    rw [List.all_eq_true] at hasc
    exact hbase (fun k => (t._n_dimensions - 1 - k, k))
      (fun a b hab => congrArg Prod.snd hab)
      (fun k hk => mem_rowMajorCoords.mpr
        ⟨by show t._n_dimensions - 1 - k < t._n_dimensions; omega, hk⟩)
      (fun k hk => hasc k (List.mem_range.mpr hk))

/-! ### Success shape of `draw`, initialization, reachability -/

theorem finished_false_elim {t : TicTacToe} (h : t.finished = false) :
    t._finished = false ∧ filledCount t ≠ t.numberOfCells := by
  unfold TicTacToe.finished at h
  simp only [Bool.or_eq_false_iff, beq_eq_false_iff_ne, ne_eq] at h
  exact h

theorem draw_ok_detail {t : TicTacToe} {entry : Mark} {c : Int × Int}
    {won : Bool} {t' : TicTacToe} (h : t.draw entry c = .ok (won, t')) :
    t.finished = false ∧ t._last_draw ≠ entry ∧
    hasKey t._n_dimensions c = true ∧ t._grid (gridKey c) = Draw.Empty ∧
    won = (decide (t._n_dimensions * 2 - 1 ≤ filledCount (placed t entry c)) &&
      rawWins (placed t entry c) entry) ∧
    t' = (if decide (t._n_dimensions * 2 - 1 ≤ filledCount (placed t entry c)) &&
        rawWins (placed t entry c) entry
      then showWinner (placed t entry c) else placed t entry c) := by
  obtain ⟨h1, h2, h3, h4⟩ := draw_ok_pre h
  refine ⟨h1, h2, h3, h4, ?_⟩
  rw [draw_eq_of_pre h1 (beq_eq_false_iff_ne.mpr h2) h3 h4] at h
  by_cases hth : t._n_dimensions * 2 - 1 ≤ filledCount (placed t entry c)
  · rw [if_pos hth] at h
    have hp := Except.ok.inj h
    rw [decide_eq_true hth, Bool.true_and]
    exact ⟨(congrArg Prod.fst hp).symm, (congrArg Prod.snd hp).symm⟩
  · rw [if_neg hth] at h
    have hp := Except.ok.inj h
    rw [decide_eq_false hth, Bool.false_and]
    simp only [Bool.false_eq_true, if_false]
    exact ⟨(congrArg Prod.fst hp).symm, (congrArg Prod.snd hp).symm⟩

/-- The board `__init__` builds for an accepted dimension. -/
def freshBoard (n : Nat) : TicTacToe :=
  { _n_dimensions := n
    _finished := false
    _last_draw := Draw.Empty
    _grid := fun _ => Draw.Empty }

theorem init_ok {n : Int} {t : TicTacToe} (h : tictactoe_init n = .ok t) :
    3 ≤ n ∧ t = freshBoard n.toNat := by
  unfold tictactoe_init at h
  split at h
  · exact absurd h (by simp)
  · next hge => exact ⟨by omega, (Except.ok.inj h).symm⟩

theorem init_ok_of_ge {n : Int} (hn : 3 ≤ n) :
    tictactoe_init n = .ok (freshBoard n.toNat) := by
  unfold tictactoe_init
  rw [if_neg (by omega)]
  rfl

theorem filledCount_fresh (n : Nat) : filledCount (freshBoard n) = 0 := by
  rw [filledCount_eq_countP]
  refine List.countP_eq_zero.mpr fun a ha => ?_
  have he : a = Draw.Empty := by
    unfold gridValues freshBoard at ha
    rw [List.mem_map] at ha
    obtain ⟨_, _, rfl⟩ := ha
    rfl
  subst he
  simp

theorem countMark_fresh {n : Nat} {m : Mark} (hm : m ≠ Draw.Empty) :
    countMark (freshBoard n) m = 0 := by
  unfold countMark
  refine List.countP_eq_zero.mpr fun a ha => ?_
  have he : a = Draw.Empty := by
    unfold gridValues freshBoard at ha
    rw [List.mem_map] at ha
    obtain ⟨_, _, rfl⟩ := ha
    rfl
  subst he
  simp only [beq_iff_eq]
  exact fun hh => hm hh.symm

/-- Board states reachable from a freshly constructed board by `k` successful
`draw` calls, each placing a non-`Empty` mark. -/
inductive ReachableN : Nat → TicTacToe → Prop where
  | base (n : Int) (t : TicTacToe) : tictactoe_init n = .ok t → ReachableN 0 t
  | step (k : Nat) (t : TicTacToe) (entry : Mark) (c : Int × Int) (won : Bool)
      (t' : TicTacToe) : ReachableN k t → entry ≠ Draw.Empty →
      t.draw entry c = .ok (won, t') → ReachableN (k + 1) t'

/-- Reachable from a freshly constructed board by successful `draw` calls
placing non-`Empty` marks. -/
def Reachable (t : TicTacToe) : Prop := ∃ k, ReachableN k t

/-- The alternation invariant: the board is at least 3×3, and a non-empty
mark `m` occupies at most half the filled cells (rounded up only when `m`
moved last). -/
def Inv (t : TicTacToe) : Prop :=
  3 ≤ t._n_dimensions ∧
  ∀ m : Mark, m ≠ Draw.Empty →
    2 * countMark t m ≤ filledCount t + (if t._last_draw = m then 1 else 0)

theorem inv_fresh {n : Nat} (hn : 3 ≤ n) : Inv (freshBoard n) := by
  refine ⟨hn, fun m hm => ?_⟩
  rw [countMark_fresh hm, filledCount_fresh]
  omega

theorem inv_step {t : TicTacToe} {entry : Mark} {c : Int × Int} {won : Bool}
    {t' : TicTacToe} (hInv : Inv t) (hne : entry ≠ Draw.Empty)
    (h : t.draw entry c = .ok (won, t')) : Inv t' := by
  obtain ⟨h1, h2, h3, h4, h5, h6⟩ := draw_ok_detail h
  have hng : t'._n_dimensions = t._n_dimensions ∧ t'._last_draw = entry ∧
      t'._grid = (placed t entry c)._grid := by
    rw [h6]
    split <;> exact ⟨rfl, rfl, rfl⟩
  obtain ⟨hn', hl', hg'⟩ := hng
  have hcm : ∀ m, countMark t' m = countMark (placed t entry c) m := by
    intro m
    unfold countMark gridValues
    rw [hn', hg']
    rfl
  have hfc : filledCount t' = filledCount (placed t entry c) := by
    unfold filledCount gridValues
    rw [hn', hg']
    rfl
  refine ⟨by rw [hn']; exact hInv.1, fun m hm => ?_⟩
  rw [hcm m, hfc, hl', countMark_placed h3 h4 hm, filledCount_placed h3 h4 hne]
  have hbase := hInv.2 m hm
  by_cases hentm : entry = m
  · subst hentm
    rw [if_neg h2] at hbase
    simp only [eq_self_iff_true, if_true]
    omega
  · simp only [if_neg hentm]
    have hle : (if t._last_draw = m then 1 else 0) ≤ 1 := by split <;> omega
    omega

theorem reachableN_inv {k : Nat} {t : TicTacToe} (h : ReachableN k t) : Inv t := by
  induction h with
  | base n t hinit =>
    obtain ⟨hn3, rfl⟩ := init_ok hinit
    exact inv_fresh (by omega)
  | step k t entry c won t' _ hne hdraw ih => exact inv_step ih hne hdraw

theorem reachable_inv {t : TicTacToe} (h : Reachable t) : Inv t := by
  obtain ⟨k, hk⟩ := h
  exact reachableN_inv hk

theorem reachable_step {t t' : TicTacToe} {entry : Mark} {c : Int × Int}
    {won : Bool} (hr : Reachable t) (hne : entry ≠ Draw.Empty)
    (h : t.draw entry c = .ok (won, t')) : Reachable t' := by
  obtain ⟨k, hk⟩ := hr
  exact ⟨k + 1, ReachableN.step k t entry c won t' hk hne h⟩

/-- On a board whose last mark is the non-empty `m` and which satisfies the
alternation invariant, a complete axis for `m` forces at least `2n - 1`
filled cells. -/
theorem filled_ge_of_win {t : TicTacToe} {m : Mark} (hInv : Inv t)
    (hm : m ≠ Draw.Empty) (hlast : t._last_draw = m)
    (hwin : spec_anyWin t m = true) :
    t._n_dimensions * 2 - 1 ≤ filledCount t := by
  have hcm := countMark_ge_of_anyWin hwin
  have hb := hInv.2 m hm
  rw [if_pos hlast] at hb
  omega

theorem spec_anyWin_showWinner (t : TicTacToe) (m : Mark) :
    spec_anyWin (showWinner t) m = spec_anyWin t m := rfl

theorem does_win_showWinner (t : TicTacToe) (m : Mark) :
    (showWinner t).does_win m = t.does_win m := rfl

theorem rawWins_eq_spec {t : TicTacToe} {m : Mark} (hn : 2 ≤ t._n_dimensions) :
    rawWins t m = spec_anyWin t m := by
  unfold rawWins spec_anyWin
  rw [does_win_eq t m hn]

/-- The main characterization of an accepted placement on a reachable board:
the returned `bool` and the stored `finished` flag agree exactly with the
specification's "some axis is complete for the placed mark", and `_does_win`
reports the four axes exactly. -/
theorem draw_ok_main {t : TicTacToe} {entry : Mark} {c : Int × Int}
    {won : Bool} {t' : TicTacToe} (hr : Reachable t) (hne : entry ≠ Draw.Empty)
    (h : t.draw entry c = .ok (won, t')) :
    won = spec_anyWin t' entry ∧ t'._finished = spec_anyWin t' entry ∧
    t'.does_win entry = (spec_rowWin t' entry, spec_colWin t' entry,
      spec_diagDescWin t' entry, spec_diagAscWin t' entry) := by
  have hr' : Reachable t' := reachable_step hr hne h
  have hInv := reachable_inv hr
  have hInv' := reachable_inv hr'
  obtain ⟨h1, h2, h3, h4, h5, h6⟩ := draw_ok_detail h
  have hfin0 : t._finished = false := (finished_false_elim h1).1
  have hnp : (placed t entry c)._n_dimensions = t._n_dimensions := rfl
  have hn2 : 2 ≤ (placed t entry c)._n_dimensions := by
    rw [hnp]; have := hInv.1; omega
  have hraw : rawWins (placed t entry c) entry =
      spec_anyWin (placed t entry c) entry := rawWins_eq_spec hn2
  have hdw' : t'.does_win entry = (spec_rowWin t' entry, spec_colWin t' entry,
      spec_diagDescWin t' entry, spec_diagAscWin t' entry) := by
    apply does_win_eq
    have := hInv'.1
    omega
  refine ⟨?_, ?_, hdw'⟩
  · by_cases hth : t._n_dimensions * 2 - 1 ≤ filledCount (placed t entry c)
    · rw [h5, decide_eq_true hth, Bool.true_and, hraw, h6, decide_eq_true hth,
        Bool.true_and, hraw]
      by_cases hw : spec_anyWin (placed t entry c) entry = true
      · rw [hw, if_pos rfl, spec_anyWin_showWinner, hw]
      · rw [Bool.not_eq_true] at hw
        rw [hw]
        simp only [Bool.false_eq_true, if_false]
        exact hw.symm
    · rw [h5, decide_eq_false hth, Bool.false_and, h6, decide_eq_false hth,
        Bool.false_and]
      simp only [Bool.false_eq_true, if_false]
      by_contra hcon
      have hw : spec_anyWin (placed t entry c) entry = true := by
        cases hwv : spec_anyWin (placed t entry c) entry
        · rw [hwv] at hcon
          exact (hcon rfl).elim
        · rfl
      exact hth (filled_ge_of_win (t := placed t entry c)
        (by rw [h6, decide_eq_false hth, Bool.false_and] at hInv'
            simpa using hInv')
        hne rfl hw)
  · by_cases hth : t._n_dimensions * 2 - 1 ≤ filledCount (placed t entry c)
    · rw [h6, decide_eq_true hth, Bool.true_and, hraw]
      by_cases hw : spec_anyWin (placed t entry c) entry = true
      · rw [hw, if_pos rfl, spec_anyWin_showWinner, hw]
        rfl
      · rw [Bool.not_eq_true] at hw
        rw [hw]
        simp only [Bool.false_eq_true, if_false]
        rw [hw]
        show (placed t entry c)._finished = false
        exact hfin0
    · rw [h6, decide_eq_false hth, Bool.false_and]
      simp only [Bool.false_eq_true, if_false]
      have hw : spec_anyWin (placed t entry c) entry = false := by
        cases hwv : spec_anyWin (placed t entry c) entry
        · rfl
        · exact absurd (filled_ge_of_win (t := placed t entry c)
            (by rw [h6, decide_eq_false hth, Bool.false_and] at hInv'
                simpa using hInv')
            hne rfl hwv) hth
      rw [hw]
      show (placed t entry c)._finished = false
      exact hfin0

/-! ### The spec's threshold-free variant of `draw` -/

/-- Specification-side variant of `draw` (spec §4.1: the `2n - 1` threshold
"is a pure performance optimization … an implementation may instead check on
every move"): identical to `draw` except that the win check runs on every
accepted placement. -/
def TicTacToe.drawAlwaysCheck (t : TicTacToe) (entry : Mark)
    (coordinate : Int × Int) :
    Except (DrawError × TicTacToe) (Bool × TicTacToe) :=
  if t.finished then .error (.gameFinished, t)
  else if t._last_draw == entry then .error (.outOfTurn, t)
  else if !hasKey t._n_dimensions coordinate then .error (.outOfBounds, t)
  else if t._grid (gridKey coordinate) != Draw.Empty then .error (.cellOccupied, t)
  else
    let t1 : TicTacToe :=
      { t with _grid := Function.update t._grid (gridKey coordinate) entry
               _last_draw := entry }
    let wins := t1.does_win entry
    let t2 := if wins.1 then showWinner t1 else t1
    let t3 := if wins.2.1 then showWinner t2 else t2
    let t4 := if wins.2.2.1 then showWinner t3 else t3
    let t5 := if wins.2.2.2 then showWinner t4 else t4
    .ok (wins.1 || wins.2.1 || wins.2.2.1 || wins.2.2.2, t5)

theorem drawAC_error_finished {t : TicTacToe} {entry : Mark} {c : Int × Int}
    (h1 : t.finished = true) :
    t.drawAlwaysCheck entry c = .error (.gameFinished, t) := by
  unfold TicTacToe.drawAlwaysCheck
  rw [if_pos h1]

theorem drawAC_error_turn {t : TicTacToe} {entry : Mark} {c : Int × Int}
    (h1 : t.finished = false) (h2 : t._last_draw = entry) :
    t.drawAlwaysCheck entry c = .error (.outOfTurn, t) := by
  unfold TicTacToe.drawAlwaysCheck
  rw [if_neg (by simp [h1]), if_pos (by simp [h2])]

theorem drawAC_error_bounds {t : TicTacToe} {entry : Mark} {c : Int × Int}
    (h1 : t.finished = false) (h2 : t._last_draw ≠ entry)
    (h3 : hasKey t._n_dimensions c = false) :
    t.drawAlwaysCheck entry c = .error (.outOfBounds, t) := by
  unfold TicTacToe.drawAlwaysCheck
  rw [if_neg (by simp [h1]), if_neg (by simp only [beq_iff_eq]; exact h2),
    if_pos (by simp [h3])]

theorem drawAC_error_occupied {t : TicTacToe} {entry : Mark} {c : Int × Int}
    (h1 : t.finished = false) (h2 : t._last_draw ≠ entry)
    (h3 : hasKey t._n_dimensions c = true)
    (h4 : t._grid (gridKey c) ≠ Draw.Empty) :
    t.drawAlwaysCheck entry c = .error (.cellOccupied, t) := by
  unfold TicTacToe.drawAlwaysCheck
  rw [if_neg (by simp [h1]), if_neg (by simp only [beq_iff_eq]; exact h2),
    if_neg (by simp [h3]), if_pos (by simp [h4])]

theorem drawAC_eq_of_pre {t : TicTacToe} {entry : Mark} {c : Int × Int}
    (h1 : t.finished = false) (h2 : (t._last_draw == entry) = false)
    (h3 : hasKey t._n_dimensions c = true)
    (h4 : t._grid (gridKey c) = Draw.Empty) :
    t.drawAlwaysCheck entry c =
      .ok (rawWins (placed t entry c) entry,
        if rawWins (placed t entry c) entry then showWinner (placed t entry c)
        else placed t entry c) := by
  unfold TicTacToe.drawAlwaysCheck
  rw [if_neg (by simp [h1]), if_neg (by simp [h2]), if_neg (by simp [h3]),
    if_neg (by simp [h4])]
  dsimp only []
  rw [placed_fold]
  simp only [rawWins]
  by_cases hw1 : ((placed t entry c).does_win entry).1 <;>
  by_cases hw2 : ((placed t entry c).does_win entry).2.1 <;>
  by_cases hw3 : ((placed t entry c).does_win entry).2.2.1 <;>
  by_cases hw4 : ((placed t entry c).does_win entry).2.2.2 <;>
    simp [hw1, hw2, hw3, hw4, showWinner_showWinner]

/-- On reachable boards the threshold in `draw` never changes the result:
the two functions agree exactly. -/
theorem drawAlwaysCheck_eq_draw {t : TicTacToe} {entry : Mark} {c : Int × Int}
    (hr : Reachable t) (hne : entry ≠ Draw.Empty) :
    t.drawAlwaysCheck entry c = t.draw entry c := by
  by_cases h1 : t.finished = true
  · rw [draw_error_finished h1, drawAC_error_finished h1]
  rw [Bool.not_eq_true] at h1
  by_cases h2 : t._last_draw = entry
  · rw [draw_error_turn h1 h2, drawAC_error_turn h1 h2]
  by_cases h3 : hasKey t._n_dimensions c = true
  case neg =>
    have h3' : hasKey t._n_dimensions c = false := by simpa using h3
    rw [draw_error_bounds h1 h2 h3', drawAC_error_bounds h1 h2 h3']
  by_cases h4 : t._grid (gridKey c) = Draw.Empty
  case neg =>
    rw [draw_error_occupied h1 h2 h3 h4, drawAC_error_occupied h1 h2 h3 h4]
  rw [draw_eq_of_pre h1 (beq_eq_false_iff_ne.mpr h2) h3 h4,
    drawAC_eq_of_pre h1 (beq_eq_false_iff_ne.mpr h2) h3 h4]
  by_cases hth : t._n_dimensions * 2 - 1 ≤ filledCount (placed t entry c)
  · rw [if_pos hth]
  · rw [if_neg hth]
    have hdraw : t.draw entry c = .ok (false, placed t entry c) := by
      rw [draw_eq_of_pre h1 (beq_eq_false_iff_ne.mpr h2) h3 h4, if_neg hth]
    have hInv' : Inv (placed t entry c) :=
      reachable_inv (reachable_step hr hne hdraw)
    have hn2 : 2 ≤ (placed t entry c)._n_dimensions := by
      have := hInv'.1
      omega
    have hspec : spec_anyWin (placed t entry c) entry = false := by
      cases hwv : spec_anyWin (placed t entry c) entry
      · rfl
      · exact absurd (filled_ge_of_win hInv' hne rfl hwv) hth
    rw [rawWins_eq_spec hn2, hspec]
    simp only [Bool.false_eq_true, if_false]

/-! ### The `finished` property as "flag or full board" -/

theorem finished_iff (t : TicTacToe) :
    t.finished = true ↔ t._finished = true ∨
      ∀ p ∈ rowMajorCoords t._n_dimensions, t._grid p ≠ Draw.Empty := by
  unfold TicTacToe.finished
  rw [Bool.or_eq_true, beq_iff_eq]
  apply or_congr Iff.rfl
  rw [filledCount_eq_countP]
  have hlen : t.numberOfCells = (gridValues t).length := by
    rw [length_gridValues]
    rfl
  rw [hlen, List.countP_eq_length]
  constructor
  · intro h p hp
    have hv := h (t._grid p) (by unfold gridValues; exact List.mem_map_of_mem _ hp)
    simpa using hv
  · intro h a ha
    unfold gridValues at ha
    rw [List.mem_map] at ha
    obtain ⟨p, hp, rfl⟩ := ha
    simpa using h p hp

/-! ### A `mergeSort`-free evaluator for concrete games

`draw` calls `List.mergeSort`, whose well-founded recursion the kernel will
not unfold, so concrete runs are evaluated through the proved-equal
reformulation below (`does_win` replaced by the specification axes via
`does_win_eq`). -/

def drawE (t : TicTacToe) (entry : Mark) (c : Int × Int) :
    Except (DrawError × TicTacToe) (Bool × TicTacToe) :=
  if t.finished then .error (.gameFinished, t)
  else if t._last_draw == entry then .error (.outOfTurn, t)
  else if !hasKey t._n_dimensions c then .error (.outOfBounds, t)
  else if t._grid (gridKey c) != Draw.Empty then .error (.cellOccupied, t)
  else
    if t._n_dimensions * 2 - 1 ≤ filledCount (placed t entry c) then
      .ok (spec_anyWin (placed t entry c) entry,
        if spec_anyWin (placed t entry c) entry then showWinner (placed t entry c)
        else placed t entry c)
    else .ok (false, placed t entry c)

theorem draw_eq_drawE {t : TicTacToe} (hn : 2 ≤ t._n_dimensions)
    (entry : Mark) (c : Int × Int) : t.draw entry c = drawE t entry c := by
  unfold drawE
  by_cases h1 : t.finished = true
  · rw [draw_error_finished h1, if_pos h1]
  rw [Bool.not_eq_true] at h1
  rw [if_neg (by simp [h1])]
  by_cases h2 : t._last_draw = entry
  · rw [draw_error_turn h1 h2, if_pos (by simp [h2])]
  rw [if_neg (by simp only [beq_iff_eq]; exact h2)]
  by_cases h3 : hasKey t._n_dimensions c = true
  case neg =>
    have h3' : hasKey t._n_dimensions c = false := by simpa using h3
    rw [draw_error_bounds h1 h2 h3', if_pos (by simp [h3'])]
  rw [if_neg (by simp [h3])]
  by_cases h4 : t._grid (gridKey c) = Draw.Empty
  case neg =>
    rw [draw_error_occupied h1 h2 h3 h4, if_pos (by simpa using h4)]
  rw [if_neg (by simp [h4])]
  rw [draw_eq_of_pre h1 (beq_eq_false_iff_ne.mpr h2) h3 h4,
    rawWins_eq_spec (show 2 ≤ (placed t entry c)._n_dimensions from hn)]

/-- `drawAlwaysCheck`, with `does_win` replaced by the proved-equal
specification axes, for kernel evaluation on concrete boards. -/
def drawACE (t : TicTacToe) (entry : Mark) (c : Int × Int) :
    Except (DrawError × TicTacToe) (Bool × TicTacToe) :=
  if t.finished then .error (.gameFinished, t)
  else if t._last_draw == entry then .error (.outOfTurn, t)
  else if !hasKey t._n_dimensions c then .error (.outOfBounds, t)
  else if t._grid (gridKey c) != Draw.Empty then .error (.cellOccupied, t)
  else
    .ok (spec_anyWin (placed t entry c) entry,
      if spec_anyWin (placed t entry c) entry then showWinner (placed t entry c)
      else placed t entry c)

theorem drawAC_eq_drawACE {t : TicTacToe} (hn : 2 ≤ t._n_dimensions)
    (entry : Mark) (c : Int × Int) :
    t.drawAlwaysCheck entry c = drawACE t entry c := by
  unfold drawACE
  by_cases h1 : t.finished = true
  · rw [drawAC_error_finished h1, if_pos h1]
  rw [Bool.not_eq_true] at h1
  rw [if_neg (by simp [h1])]
  by_cases h2 : t._last_draw = entry
  · rw [drawAC_error_turn h1 h2, if_pos (by simp [h2])]
  rw [if_neg (by simp only [beq_iff_eq]; exact h2)]
  by_cases h3 : hasKey t._n_dimensions c = true
  case neg =>
    have h3' : hasKey t._n_dimensions c = false := by simpa using h3
    rw [drawAC_error_bounds h1 h2 h3', if_pos (by simp [h3'])]
  rw [if_neg (by simp [h3])]
  by_cases h4 : t._grid (gridKey c) = Draw.Empty
  case neg =>
    rw [drawAC_error_occupied h1 h2 h3 h4, if_pos (by simpa using h4)]
  rw [if_neg (by simp [h4])]
  rw [drawAC_eq_of_pre h1 (beq_eq_false_iff_ne.mpr h2) h3 h4,
    rawWins_eq_spec (show 2 ≤ (placed t entry c)._n_dimensions from hn)]

/-- A fresh 3×3 board: the state `tictactoe_init 3` produces. -/
def board3 : TicTacToe := freshBoard 3

theorem init3_eq : tictactoe_init 3 = .ok board3 :=
  init_ok_of_ge (by omega)

/-- Play a list of `(entry, x, y)` moves in order, stopping at the first
raised error; returns the last move's result. -/
def playMoves (t : TicTacToe) :
    List (Mark × Int × Int) → Except (DrawError × TicTacToe) (Bool × TicTacToe)
  | [] => .ok (false, t)
  | mv :: rest =>
    match t.draw mv.1 (mv.2.1, mv.2.2) with
    | .error e => .error e
    | .ok (won, t') =>
      match rest with
      | [] => .ok (won, t')
      | _ :: _ => playMoves t' rest

/-- `playMoves`, over the `mergeSort`-free evaluator. -/
def playMovesE (t : TicTacToe) :
    List (Mark × Int × Int) → Except (DrawError × TicTacToe) (Bool × TicTacToe)
  | [] => .ok (false, t)
  | mv :: rest =>
    match drawE t mv.1 (mv.2.1, mv.2.2) with
    | .error e => .error e
    | .ok (won, t') =>
      match rest with
      | [] => .ok (won, t')
      | _ :: _ => playMovesE t' rest

theorem draw_preserves_n {t : TicTacToe} {entry : Mark} {c : Int × Int}
    {won : Bool} {t' : TicTacToe} (h : t.draw entry c = .ok (won, t')) :
    t'._n_dimensions = t._n_dimensions := by
  obtain ⟨-, -, -, -, -, h6⟩ := draw_ok_detail h
  rw [h6]
  split <;> rfl

theorem playMoves_eq_playMovesE {t : TicTacToe} (hn : 2 ≤ t._n_dimensions) :
    ∀ moves : List (Mark × Int × Int), playMoves t moves = playMovesE t moves
  | [] => rfl
  | mv :: rest => by
    unfold playMoves playMovesE
    rw [← draw_eq_drawE hn]
    cases hd : t.draw mv.1 (mv.2.1, mv.2.2) with
    | error e => rfl
    | ok p =>
      obtain ⟨won, t'⟩ := p
      cases rest with
      | nil => rfl
      | cons mv' rest' =>
        have hn' : 2 ≤ t'._n_dimensions := by
          rw [draw_preserves_n hd]
          exact hn
        exact playMoves_eq_playMovesE hn' (mv' :: rest')

/-- Observable summary of a result: the error tag on failure, or the returned
`bool` together with the resulting state's stored `_finished` flag,
`finished` property and `_last_draw` on success. -/
def summary (r : Except (DrawError × TicTacToe) (Bool × TicTacToe)) :
    Option DrawError × Option (Bool × Bool × Bool × Mark) :=
  match r with
  | .error (e, _) => (some e, none)
  | .ok (won, t) => (none, some (won, t._finished, t.finished, t._last_draw))

/-! ### Concrete boards used by the claim-level results -/

/-- A mark that is neither a player mark nor `Empty` (any other string works
the same way; the engine never inspects it). -/
def strayMark : Mark := "Z"

/-- The board after the two accepted calls `draw(X, (0,0))`,
`draw(Empty, (0,1))` on a fresh 3×3 board: the engine accepts `Empty` as a
mark, so `lastMark` ends up `Empty` again. -/
def emptyMarkBoard : TicTacToe :=
  placed (placed board3 Draw.X (0, 0)) Draw.Empty (0, 1)

/-- The board after `draw(X,(0,0))`, `draw(Empty,(1,0))`, `draw(X,(0,1))`,
`draw(Empty,(1,0))` on a fresh 3×3 board: `Empty` placements are no-ops on
the grid values, so only two cells look filled while it is `X`'s turn
again. -/
def noOpBoard : TicTacToe :=
  placed (placed (placed (placed board3 Draw.X (0, 0)) Draw.Empty (1, 0))
    Draw.X (0, 1)) Draw.Empty (1, 0)

/-! ### The claims -/

/-- Claim C1, counterexample to the claim as stated: from `New(3)`, the two
calls `Place(X,(0,0))` and `Place(Empty,(0,1))` are both accepted (the mark
argument is never validated, claim C9), after which the bottom row consists
entirely of the placed mark `Empty` — an axis complete for that mark — yet
the accepted call returned `won = false` and left `finished` unset. -/
theorem C1_cex :
    tictactoe_init 3 = .ok board3 ∧
    playMoves board3 [(Draw.X, 0, 0), (Draw.Empty, 0, 1)] =
      .ok (false, emptyMarkBoard) ∧
    emptyMarkBoard._finished = false ∧
    spec_anyWin emptyMarkBoard Draw.Empty = true := by
  refine ⟨init3_eq, ?_, by decide, by decide⟩
  rw [playMoves_eq_playMovesE (by decide)]
  rfl

/-- Claim C1 (amended: all placements restricted to non-`Empty` marks): for
every board reachable from `New(n)` by successful placements of non-`Empty`
marks and every accepted `Place(mark, cell)` with `mark ≠ Empty`, the call
returns `won = true` and sets `finished = true` if and only if, after the
cell is set to `mark`, at least one of the four axes is complete for `mark`;
moreover the four axes are evaluated independently: the `_does_win` tuple
equals the four axis predicates componentwise, so all true axes are
reported with no short-circuit after the first. -/
theorem C1_place_win_iff_axes {t : TicTacToe} {entry : Mark} {c : Int × Int}
    {won : Bool} {t' : TicTacToe} (hr : Reachable t) (hne : entry ≠ Draw.Empty)
    (h : t.draw entry c = .ok (won, t')) :
    (won = true ↔ spec_anyWin t' entry = true) ∧
    (t'._finished = true ↔ spec_anyWin t' entry = true) ∧
    t'.does_win entry = (spec_rowWin t' entry, spec_colWin t' entry,
      spec_diagDescWin t' entry, spec_diagAscWin t' entry) := by
  obtain ⟨hw, hf, hdw⟩ := draw_ok_main hr hne h
  exact ⟨by rw [hw], by rw [hf], hdw⟩

/-- Claim C1, witness: the amended theorem applied to the first move
`Place(X,(0,0))` on a fresh 3×3 board. -/
theorem C1_witness :
    (false = true ↔ spec_anyWin (placed board3 Draw.X (0, 0)) Draw.X = true) ∧
    ((placed board3 Draw.X (0, 0))._finished = true ↔
      spec_anyWin (placed board3 Draw.X (0, 0)) Draw.X = true) ∧
    (placed board3 Draw.X (0, 0)).does_win Draw.X =
      (spec_rowWin (placed board3 Draw.X (0, 0)) Draw.X,
       spec_colWin (placed board3 Draw.X (0, 0)) Draw.X,
       spec_diagDescWin (placed board3 Draw.X (0, 0)) Draw.X,
       spec_diagAscWin (placed board3 Draw.X (0, 0)) Draw.X) := by
  have h : board3.draw Draw.X (0, 0) = .ok (false, placed board3 Draw.X (0, 0)) := by
    rw [draw_eq_drawE (by decide)]
    rfl
  exact C1_place_win_iff_axes ⟨0, ReachableN.base 3 board3 init3_eq⟩ (by decide) h

/-- Claim C2: `draw` checks its preconditions in the fixed order finished →
out-of-turn → out-of-bounds → occupied, each violation producing its own
typed error (with the entry state, never a fault and never ignored), so an
input violating several preconditions reports the first in this order; when
none is violated the call succeeds. -/
theorem C2_check_order (t : TicTacToe) (entry : Mark) (c : Int × Int) :
    (t.finished = true → t.draw entry c = .error (.gameFinished, t)) ∧
    (t.finished = false → t._last_draw = entry →
      t.draw entry c = .error (.outOfTurn, t)) ∧
    (t.finished = false → t._last_draw ≠ entry →
      hasKey t._n_dimensions c = false →
      t.draw entry c = .error (.outOfBounds, t)) ∧
    (t.finished = false → t._last_draw ≠ entry →
      hasKey t._n_dimensions c = true → t._grid (gridKey c) ≠ Draw.Empty →
      t.draw entry c = .error (.cellOccupied, t)) ∧
    (t.finished = false → t._last_draw ≠ entry →
      hasKey t._n_dimensions c = true → t._grid (gridKey c) = Draw.Empty →
      ∃ r, t.draw entry c = .ok r) := by
  refine ⟨draw_error_finished, draw_error_turn, draw_error_bounds,
    draw_error_occupied, fun h1 h2 h3 h4 => ?_⟩
  rw [draw_eq_of_pre h1 (beq_eq_false_iff_ne.mpr h2) h3 h4]
  split
  · exact ⟨_, rfl⟩
  · exact ⟨_, rfl⟩

/-- Claim C2, witness: on a fresh 3×3 board a same-mark move reports
out-of-turn, and a violation of both the turn and the bounds precondition
reports the earlier check's error. -/
theorem C2_witness :
    board3.draw Draw.Empty (0, 0) = .error (.outOfTurn, board3) ∧
    board3.draw Draw.X (3, 0) = .error (.outOfBounds, board3) :=
  ⟨(C2_check_order board3 Draw.Empty (0, 0)).2.1 rfl rfl,
   (C2_check_order board3 Draw.X (3, 0)).2.2.1 rfl (by decide) (by decide)⟩

/-- Claim C3: atomicity on error — a `draw` call that raises any of the four
errors leaves the board entirely unchanged: the state carried out with the
error is the entry state, so every cell value, `lastMark` (hence
`CurrentTurn()`), `finished` (hence `IsFinished()`) and the dimension are
the same as before the call. -/
theorem C3_error_atomicity {t : TicTacToe} {entry : Mark} {c : Int × Int}
    {e : DrawError} {t' : TicTacToe}
    (h : t.draw entry c = .error (e, t')) :
    t' = t ∧ t'._grid = t._grid ∧ t'._last_draw = t._last_draw ∧
    t'.current_drawer = t.current_drawer ∧ t'._finished = t._finished ∧
    t'.finished = t.finished ∧ t'._n_dimensions = t._n_dimensions := by
  have he := draw_error_state h
  subst he
  exact ⟨rfl, rfl, rfl, rfl, rfl, rfl, rfl⟩

/-- Claim C3, witness: the atomicity theorem applied to the out-of-turn
error raised by `draw(Empty, (0,0))` on a fresh 3×3 board. -/
theorem C3_witness :
    board3.draw Draw.Empty (0, 0) = .error (.outOfTurn, board3) ∧
    (board3 = board3 ∧ board3._grid = board3._grid ∧
     board3._last_draw = board3._last_draw ∧
     board3.current_drawer = board3.current_drawer ∧
     board3._finished = board3._finished ∧
     board3.finished = board3.finished ∧
     board3._n_dimensions = board3._n_dimensions) :=
  have h : board3.draw Draw.Empty (0, 0) = .error (.outOfTurn, board3) := rfl
  ⟨h, C3_error_atomicity h⟩

/-- Claim C4: construction contract — for every integer `n ≥ 3`, `New(n)`
succeeds with a board of exactly `n * n` cells, all `Empty`, with
`lastMark = Empty` and `finished = false`; for every `n < 3` it fails with
`InvalidDimension` and no board is produced. -/
theorem C4_construction :
    (∀ n : Int, 3 ≤ n → ∃ t : TicTacToe, tictactoe_init n = .ok t ∧
      (t._n_dimensions : Int) = n ∧
      ((rowMajorCoords t._n_dimensions).length : Int) = n * n ∧
      (∀ p : Nat × Nat, t._grid p = Draw.Empty) ∧
      t._last_draw = Draw.Empty ∧ t._finished = false) ∧
    (∀ n : Int, n < 3 → tictactoe_init n = .error .invalidDimension) := by
  constructor
  · intro n hn
    refine ⟨freshBoard n.toNat, init_ok_of_ge hn, ?_, ?_, fun p => rfl, rfl, rfl⟩
    · show ((n.toNat : Nat) : Int) = n
      omega
    · rw [length_rowMajorCoords]
      show ((n.toNat * n.toNat : Nat) : Int) = n * n
      push_cast
      rw [Int.toNat_of_nonneg (by omega)]
  · intro n hn
    unfold tictactoe_init
    rw [if_pos hn]

/-- Claim C4, witness: the construction contract at `n = 3` and `n = 2`. -/
theorem C4_witness :
    (∃ t : TicTacToe, tictactoe_init 3 = .ok t ∧
      (t._n_dimensions : Int) = 3 ∧
      ((rowMajorCoords t._n_dimensions).length : Int) = 3 * 3 ∧
      (∀ p : Nat × Nat, t._grid p = Draw.Empty) ∧
      t._last_draw = Draw.Empty ∧ t._finished = false) ∧
    tictactoe_init 2 = .error .invalidDimension :=
  ⟨C4_construction.1 3 (by omega), C4_construction.2 2 (by omega)⟩

/-- Claim C5, counterexample to the claim's example: the spec's "classic
n=3 draw pattern" (`A` at `(0,0),(0,2),(1,1),(2,0),(2,2)`; `B` at
`(0,1),(1,0),(1,2),(2,1)`) puts `A` on both full diagonals, so it is not a
draw: interleaving it in the listed order, the 7th placement already
returns `won = true` and finishes the game (ascending diagonal), and the
full 9-move sequence dies with the game-already-finished error — the final
`Place` never returns `won = false`. -/
theorem C5_cex :
    tictactoe_init 3 = .ok board3 ∧
    summary (playMoves board3
      [(Draw.X, 0, 0), (Draw.O, 0, 1), (Draw.X, 0, 2), (Draw.O, 1, 0),
       (Draw.X, 1, 1), (Draw.O, 1, 2), (Draw.X, 2, 0)]) =
      (none, some (true, true, true, Draw.X)) ∧
    summary (playMoves board3
      [(Draw.X, 0, 0), (Draw.O, 0, 1), (Draw.X, 0, 2), (Draw.O, 1, 0),
       (Draw.X, 1, 1), (Draw.O, 1, 2), (Draw.X, 2, 0), (Draw.O, 2, 1),
       (Draw.X, 2, 2)]) = (some .gameFinished, none) := by
  refine ⟨init3_eq, ?_, ?_⟩ <;> rw [playMoves_eq_playMovesE (by decide)] <;> decide

/-- Claim C5 (amended: the example replaced by a genuine draw pattern):
`IsFinished()` returns true iff the stored flag is set or every one of the
`n*n` cells is non-`Empty`; and after a 9-move sequence that fills the 3×3
board with no complete line (`A` at `(0,0),(0,1),(1,2),(2,0),(2,1)`, `B` at
`(0,2),(1,0),(1,1),(2,2)`), the final `Place` returns `won = false`, the
stored flag stays unset, and `IsFinished()` returns true. -/
theorem C5_finished_iff_and_draw :
    (∀ t : TicTacToe, t.finished = true ↔ t._finished = true ∨
      ∀ p ∈ rowMajorCoords t._n_dimensions, t._grid p ≠ Draw.Empty) ∧
    summary (playMoves board3
      [(Draw.X, 0, 0), (Draw.O, 0, 2), (Draw.X, 0, 1), (Draw.O, 1, 0),
       (Draw.X, 1, 2), (Draw.O, 1, 1), (Draw.X, 2, 0), (Draw.O, 2, 2),
       (Draw.X, 2, 1)]) = (none, some (false, false, true, Draw.X)) := by
  constructor
  · exact finished_iff
  · rw [playMoves_eq_playMovesE (by decide)]
    decide

/-- Claim C5, witness: the `IsFinished` characterization applied to the
fresh 3×3 board. -/
theorem C5_witness :
    board3.finished = true ↔ board3._finished = true ∨
      ∀ p ∈ rowMajorCoords board3._n_dimensions, board3._grid p ≠ Draw.Empty :=
  C5_finished_iff_and_draw.1 board3

/-- Claim C6, counterexample to the claim as stated: `Empty` placements are
accepted without marking a cell as filled, so from `New(3)` the sequence
`X(0,0), Empty(1,0), X(0,1), Empty(1,0)` is four accepted calls after which
it is again `X`'s turn with only 2 cells filled; the accepted fifth call
`Place(X,(0,2))` completes row 0 for `X` while only `3 < 2·3 - 1` cells are
filled, so the threshold implementation returns `won = false` with
`finished` unset while the check-every-move variant returns `won = true`
and finishes the game. -/
theorem C6_cex :
    playMoves board3
      [(Draw.X, 0, 0), (Draw.Empty, 1, 0), (Draw.X, 0, 1), (Draw.Empty, 1, 0)] =
      .ok (false, noOpBoard) ∧
    summary (noOpBoard.draw Draw.X (0, 2)) =
      (none, some (false, false, false, Draw.X)) ∧
    summary (noOpBoard.drawAlwaysCheck Draw.X (0, 2)) =
      (none, some (true, true, true, Draw.X)) ∧
    filledCount (placed noOpBoard Draw.X (0, 2)) = 3 ∧
    spec_anyWin (placed noOpBoard Draw.X (0, 2)) Draw.X = true := by
  refine ⟨?_, ?_, ?_, by decide, by decide⟩
  · rw [playMoves_eq_playMovesE (by decide)]
    rfl
  · rw [draw_eq_drawE (by decide)]
    decide
  · rw [drawAC_eq_drawACE (by decide)]
    decide

/-- Claim C6 (amended: all placements restricted to non-`Empty` marks): the
`2n - 1` threshold is a pure optimization — on every board reachable by
placements of non-`Empty` marks, the check-every-move variant returns
exactly the same result (same `won`, same state, hence same `finished`
flag) as `draw`, and after an accepted placement of a non-`Empty` mark that
leaves fewer than `2n - 1` cells filled, no axis is complete for the placed
mark. -/
theorem C6_threshold_equiv {t : TicTacToe} {entry : Mark} {c : Int × Int}
    (hr : Reachable t) (hne : entry ≠ Draw.Empty) :
    t.drawAlwaysCheck entry c = t.draw entry c ∧
    (∀ won t', t.draw entry c = .ok (won, t') →
      filledCount t' < t._n_dimensions * 2 - 1 →
      spec_anyWin t' entry = false) := by
  refine ⟨drawAlwaysCheck_eq_draw hr hne, fun won t' h hlt => ?_⟩
  have hInv' := reachable_inv (reachable_step hr hne h)
  cases hv : spec_anyWin t' entry
  · rfl
  · obtain ⟨-, -, -, -, -, h6⟩ := draw_ok_detail h
    have hlast : t'._last_draw = entry := by
      rw [h6]
      split <;> rfl
    have hge := filled_ge_of_win hInv' hne hlast hv
    have hn' : t'._n_dimensions = t._n_dimensions := draw_preserves_n h
    rw [hn'] at hge
    omega

/-- Claim C6, witness: the threshold equivalence applied to the first move
`Place(X,(0,0))` on a fresh 3×3 board. -/
theorem C6_witness :
    board3.drawAlwaysCheck Draw.X (0, 0) = board3.draw Draw.X (0, 0) :=
  (C6_threshold_equiv ⟨0, ReachableN.base 3 board3 init3_eq⟩ (by decide)).1

/-- Claim C7, counterexample to the claim as stated: from `New(3)` the two
successful calls `Place(X,(0,0))` and `Place(Empty,(0,1))` leave
`lastMark = Empty` — the engine never validates the mark argument, so a
sequence of successful placements can reset `lastMark` to `Empty`. -/
theorem C7_cex :
    tictactoe_init 3 = .ok board3 ∧
    playMoves board3 [(Draw.X, 0, 0), (Draw.Empty, 0, 1)] =
      .ok (false, emptyMarkBoard) ∧
    emptyMarkBoard._last_draw = Draw.Empty := by
  refine ⟨init3_eq, ?_, by decide⟩
  rw [playMoves_eq_playMovesE (by decide)]
  rfl

/-- Claim C7 (amended: placements restricted to non-`Empty` marks): in every
board state reachable from `New(n)` by a sequence of successful `Place`
calls with non-`Empty` marks that contains at least one placement,
`lastMark` is not `Empty`. -/
theorem C7_lastMark_nonEmpty {k : Nat} {t : TicTacToe} (h : ReachableN k t)
    (hk : 1 ≤ k) : t._last_draw ≠ Draw.Empty := by
  cases h with
  | base n t hinit => omega
  | step k t entry c won t' hprev hne hdraw =>
    obtain ⟨-, -, -, -, -, h6⟩ := draw_ok_detail hdraw
    rw [h6]
    split
    · exact hne
    · exact hne

/-- Claim C7, witness: after the single placement `Place(X,(0,0))` on a
fresh 3×3 board, `lastMark` is not `Empty`. -/
theorem C7_witness : (placed board3 Draw.X (0, 0))._last_draw ≠ Draw.Empty := by
  have hd : board3.draw Draw.X (0, 0) = .ok (false, placed board3 Draw.X (0, 0)) := by
    rw [draw_eq_drawE (by decide)]
    rfl
  exact C7_lastMark_nonEmpty
    (ReachableN.step 0 board3 Draw.X (0, 0) false (placed board3 Draw.X (0, 0))
      (ReachableN.base 3 board3 init3_eq) (by decide) hd) (by omega)

/-- Claim C8, counterexample to the claim as stated: on a freshly
constructed board, `Place(Empty, (0,0))` does fail with the out-of-turn
error, because the mark value `Empty` equals the initial `lastMark` — so
"no mark equals `Empty`" does not hold for every mark value the engine
accepts. -/
theorem C8_cex :
    tictactoe_init 3 = .ok board3 ∧
    board3.draw Draw.Empty (0, 0) = .error (.outOfTurn, board3) :=
  ⟨init3_eq, rfl⟩

/-- Claim C8 (amended: mark values restricted to non-`Empty` marks, in
particular the player marks): on a freshly constructed board the
out-of-turn check is vacuous — for every non-`Empty` mark and every cell, a
failing `Place` never reports out-of-turn, since `lastMark` starts `Empty`
and no non-`Empty` mark equals it; so either player may move first. -/
theorem C8_first_move_no_outOfTurn {n : Int} {t : TicTacToe}
    (hinit : tictactoe_init n = .ok t) {entry : Mark}
    (hne : entry ≠ Draw.Empty) (c : Int × Int) {e : DrawError}
    {t' : TicTacToe} (h : t.draw entry c = .error (e, t')) :
    e ≠ DrawError.outOfTurn := by
  obtain ⟨hn3, rfl⟩ := init_ok hinit
  have h1 : (freshBoard n.toNat).finished = false := by
    unfold TicTacToe.finished
    rw [filledCount_fresh]
    have hpos : 0 < (freshBoard n.toNat).numberOfCells := by
      show 0 < n.toNat * n.toNat
      have h3 : 3 ≤ n.toNat := by omega
      exact Nat.mul_pos (by omega) (by omega)
    simp only [Bool.or_eq_false_iff]
    exact ⟨rfl, by simp only [beq_eq_false_iff_ne]; omega⟩
  unfold TicTacToe.draw at h
  rw [if_neg (by simp [h1])] at h
  rw [if_neg (by simp only [beq_iff_eq]; exact fun hh => hne hh.symm)] at h
  split at h
  · obtain rfl : DrawError.outOfBounds = e := congrArg Prod.fst (Except.error.inj h)
    decide
  · split at h
    · obtain rfl : DrawError.cellOccupied = e :=
        congrArg Prod.fst (Except.error.inj h)
      decide
    · dsimp only [] at h
      split at h <;> exact absurd h (by simp)

/-- Claim C8, witness: the amended theorem applied to the out-of-bounds
failure of `Place(X,(3,3))` on a fresh 3×3 board. -/
theorem C8_witness :
    board3.draw Draw.X (3, 3) = .error (.outOfBounds, board3) ∧
    DrawError.outOfBounds ≠ DrawError.outOfTurn := by
  have h : board3.draw Draw.X (3, 3) = .error (.outOfBounds, board3) := rfl
  exact ⟨h, C8_first_move_no_outOfTurn init3_eq (by decide) (3, 3) h⟩

/-- Claim C9: `draw` performs no validation of the mark argument — for every
value `m` (including `Empty` and values that are neither player mark), if
the game is not finished, `m` differs from `lastMark`, the cell is a grid
key and the cell is `Empty`, then the call succeeds, stores `m` in the cell
and sets `lastMark = m`; an error is raised only for the four listed
precondition violations, never for an invalid mark. -/
theorem C9_no_mark_validation (t : TicTacToe) (m : Mark) (c : Int × Int)
    (h1 : t.finished = false) (h2 : t._last_draw ≠ m)
    (h3 : hasKey t._n_dimensions c = true)
    (h4 : t._grid (gridKey c) = Draw.Empty) :
    ∃ won t', t.draw m c = .ok (won, t') ∧
      t'._grid (gridKey c) = m ∧ t'._last_draw = m := by
  rw [draw_eq_of_pre h1 (beq_eq_false_iff_ne.mpr h2) h3 h4]
  have hgrid : (placed t m c)._grid (gridKey c) = m := Function.update_same _ _ _
  split
  · split
    · exact ⟨_, _, rfl, hgrid, rfl⟩
    · exact ⟨_, _, rfl, hgrid, rfl⟩
  · exact ⟨_, _, rfl, hgrid, rfl⟩

/-- Claim C9, witness: the stray mark `"Z"` — neither a player mark nor
`Empty` — is accepted on a fresh 3×3 board, stored in the cell, and becomes
`lastMark`. -/
theorem C9_witness :
    ∃ won t', board3.draw strayMark (0, 0) = .ok (won, t') ∧
      t'._grid (gridKey (0, 0)) = strayMark ∧ t'._last_draw = strayMark :=
  C9_no_mark_validation board3 strayMark (0, 0) rfl (by decide) (by decide) rfl

/-- Claim C10: frame property of a successful placement (on a board of the
data model, `n ≥ 3`): only the target cell (which goes from `Empty` to the
placed mark), `lastMark` (set to the mark) and possibly the `finished` flag
change; the flag is set to true only when an axis is complete for the
placed mark, every other cell keeps its value, and the dimension is
unchanged. -/
theorem C10_frame (t : TicTacToe) (entry : Mark) (c : Int × Int) (won : Bool)
    (t' : TicTacToe) (hn : 3 ≤ t._n_dimensions)
    (h : t.draw entry c = .ok (won, t')) :
    t'._n_dimensions = t._n_dimensions ∧
    t._grid (gridKey c) = Draw.Empty ∧ t'._grid (gridKey c) = entry ∧
    (∀ p : Nat × Nat, p ≠ gridKey c → t'._grid p = t._grid p) ∧
    t'._last_draw = entry ∧
    t._finished = false ∧
    (t'._finished = true → spec_anyWin t' entry = true) := by
  obtain ⟨h1, h2, h3, h4, h5, h6⟩ := draw_ok_detail h
  have hfin0 := (finished_false_elim h1).1
  have hg : t'._grid = Function.update t._grid (gridKey c) entry := by
    rw [h6]
    split <;> rfl
  have hl : t'._last_draw = entry := by
    rw [h6]
    split <;> rfl
  refine ⟨draw_preserves_n h, h4, ?_, ?_, hl, hfin0, ?_⟩
  · rw [hg]
    exact Function.update_same _ _ _
  · intro p hp
    rw [hg]
    exact Function.update_noteq hp _ _
  · intro hfin
    by_cases hcond : (decide (t._n_dimensions * 2 - 1 ≤
        filledCount (placed t entry c)) && rawWins (placed t entry c) entry) = true
    · rw [h6, if_pos hcond, spec_anyWin_showWinner]
      rw [← rawWins_eq_spec
        (show 2 ≤ (placed t entry c)._n_dimensions from
          (by omega : 2 ≤ t._n_dimensions))]
      have hc2 := hcond
      simp only [Bool.and_eq_true] at hc2
      exact hc2.2
    · rw [h6, if_neg hcond] at hfin
      rw [show (placed t entry c)._finished = t._finished from rfl, hfin0] at hfin
      exact absurd hfin (by simp)

/-- Claim C10, witness: the frame property of the first move
`Place(X,(0,0))` on a fresh 3×3 board. -/
theorem C10_witness :
    (placed board3 Draw.X (0, 0))._n_dimensions = board3._n_dimensions ∧
    board3._grid (gridKey (0, 0)) = Draw.Empty ∧
    (placed board3 Draw.X (0, 0))._grid (gridKey (0, 0)) = Draw.X ∧
    (∀ p : Nat × Nat, p ≠ gridKey (0, 0) →
      (placed board3 Draw.X (0, 0))._grid p = board3._grid p) ∧
    (placed board3 Draw.X (0, 0))._last_draw = Draw.X ∧
    board3._finished = false ∧
    ((placed board3 Draw.X (0, 0))._finished = true →
      spec_anyWin (placed board3 Draw.X (0, 0)) Draw.X = true) := by
  have h : board3.draw Draw.X (0, 0) = .ok (false, placed board3 Draw.X (0, 0)) := by
    rw [draw_eq_drawE (by decide)]
    rfl
  exact C10_frame board3 Draw.X (0, 0) false (placed board3 Draw.X (0, 0))
    (by decide) h

end TTTT
